import Mathlib

/-!
Verification development for the aura benchmark-generation repository.

The Python sources under scripts/ are shallowly embedded: strings are
modelled as List Char, JSON records as Lean structures with Option-valued
fields (none = key absent), the OpenAI client as an oracle parameter, and
the random shuffle as an explicitly passed permutation.  Each definition
mirrors one Python function or main-loop fragment; the theorems at the end
settle the frozen claims about the spec.
-/

namespace Aura

/-! ## Response normalizer (normalise_json_str in causal_qa.py,
unanswerable_qa.py and evaluation/evaluation.py)

The Python function is
  txt = txt.strip()
  txt = re.sub(r"^```(json)?\s*|\s*```$", "", txt, flags=re.MULTILINE)
  txt = re.sub(r",\s*}", "}", txt)
  txt = re.sub(r",\s*]", "]", txt)
Each re.sub scans left to right for non-overlapping matches.  We model a
string as List Char and replicate that scan.  The fence patterns require a
backtick, caret and dollar are the MULTILINE line anchors, and the comma
patterns are deterministic because the greedy whitespace run cannot
backtrack into a match.  Fuel equal to the list length bounds the scans:
every step consumes at least one character, so the fuel never runs out on
the instantiations used. -/

/-- ASCII whitespace, the characters Python strip and regex blank-class
treat as whitespace for ASCII text. -/
def isPyWs (c : Char) : Bool :=
  c = ' ' ∨ c = '\t' ∨ c = '\n' ∨ c = '\r' ∨ c = Char.ofNat 11 ∨ c = Char.ofNat 12

/-- The backtick character, written via its code point. -/
def tick : Char := Char.ofNat 96

/-- Python str.strip on a character list: drop leading and trailing
whitespace. -/
def pyStrip (l : List Char) : List Char :=
  ((l.dropWhile isPyWs).reverse.dropWhile isPyWs).reverse

/-- Does the list start with three backticks? -/
def ticksAt : List Char → Bool
  | a :: b :: c :: _ => a = tick ∧ b = tick ∧ c = tick
  | _ => false

/-- Does the list start with the four characters of the word json? -/
def jsonAt : List Char → Bool
  | a :: b :: c :: d :: _ => a = 'j' ∧ b = 's' ∧ c = 'o' ∧ d = 'n'
  | _ => false

/-- MULTILINE dollar anchor: end of string or just before a newline. -/
def dollarAt : List Char → Bool
  | [] => true
  | c :: _ => c = '\n'

/-- One left-to-right re.sub scan for the fence pattern.  The Bool flag
records whether the current position is at a line start (caret anchor);
after a removed match it is recomputed from the last consumed character. -/
def fenceAux : Nat → Bool → List Char → List Char
  | _, _, [] => []
  | 0, _, l => l
  | fuel + 1, atStart, c :: rest =>
    if atStart ∧ ticksAt (c :: rest) then
      let l1 := (c :: rest).drop 3
      let l2 := if jsonAt l1 then l1.drop 4 else l1
      let ws := l2.takeWhile isPyWs
      fenceAux fuel (ws.getLast? = some '\n') (l2.dropWhile isPyWs)
    else
      let r1 := (c :: rest).dropWhile isPyWs
      if ticksAt r1 ∧ dollarAt (r1.drop 3) then
        fenceAux fuel false (r1.drop 3)
      else
        c :: fenceAux fuel (c = '\n') rest

/-- One left-to-right re.sub scan replacing a comma, optional whitespace
and a closing character by just the closing character. -/
def commaAux (close : Char) : Nat → List Char → List Char
  | _, [] => []
  | 0, l => l
  | fuel + 1, c :: rest =>
    if c = ',' then
      match rest.dropWhile isPyWs with
      | d :: r3 =>
        if d = close then close :: commaAux close fuel r3
        else c :: commaAux close fuel rest
      | [] => c :: commaAux close fuel rest
    else c :: commaAux close fuel rest

/-- The trailing-comma repair pass of normalise_json_str. -/
def commaSub (close : Char) (l : List Char) : List Char :=
  commaAux close l.length l

/-- The code-fence stripping pass of normalise_json_str. -/
def fenceSub (l : List Char) : List Char :=
  fenceAux l.length true l

/-- normalise_json_str: strip, remove code fences, drop trailing commas
before a closing brace, then before a closing bracket. -/
def normalise_json_str (l : List Char) : List Char :=
  commaSub ']' (commaSub '}' (fenceSub (pyStrip l)))

/-! ## Generated items and the per-unit write loop

A generated question is a JSON object; the fields the validators inspect
are modelled as Option-valued (none = key absent from the dict).  The
parsed model response is either a JSON list of such items or some other
JSON value. -/

/-- A generated QA dict as the validators see it. -/
structure Item where
  question : Option String
  options : Option (List (String × String))
  correct_answer_key : Option String
  gold_reasoning : Option String
  video_id : Option String
  category : Option String
deriving DecidableEq

/-- The shape of a parsed model response: a JSON list of items, or any
other JSON value (dict, string, number, ...). -/
inductive JVal where
  | arr : List Item → JVal
  | other : JVal
deriving DecidableEq

/-- Python dict-get on an association list: value of the first entry with
the given key. -/
def lookupOpt (opts : List (String × String)) (k : String) : Option String :=
  (opts.find? (fun p => p.1 = k)).map (fun p => p.2)

/-- The per-unit validate-then-write loop shared by the generation mains:
each item is validated and, on success, immediately appended; the first
validation failure raises, keeping the records already written. -/
def appendLoop (val : Item → Option Item) : List Item → List Item
  | [] => []
  | d :: rest =>
    match val d with
    | some d2 => d2 :: appendLoop val rest
    | none => []

/-- Sequential processing of work units: each unit yields its appended
records and its model-call count; records are appended in order and one
unit never halts the loop. -/
def runUnits {α β : Type} (proc : α → List β × Nat) : List α → List β × Nat
  | [] => ([], 0)
  | u :: us =>
    ((proc u).1 ++ (runUnits proc us).1, (proc u).2 + (runUnits proc us).2)

/-! ## causal_qa.py -/

namespace Causal

/-- One work unit of causal_qa.main: the transcript file stem, whether the
companion caption files exist, the stripped texts read from them, and the
oracle for the parsed model response (none = API call or json.loads
raised). -/
structure WUnit where
  vid : String
  visExists : Bool
  audExists : Bool
  visText : String
  audText : String
  transcript : String
  response : Option JVal
deriving DecidableEq

/-- validate_item of causal_qa.py: require the six keys, then stamp
video_id and category. -/
def hasRequired (d : Item) : Bool :=
  d.question.isSome ∧ d.options.isSome ∧ d.correct_answer_key.isSome ∧
    d.gold_reasoning.isSome ∧ d.video_id.isSome ∧ d.category.isSome

/-- The stamping side of validate_item. -/
def stamp (vid : String) (d : Item) : Item :=
  { d with video_id := some vid, category := some "causal_reasoning" }

/-- validate_item as a total function: some = validated-and-stamped item,
none = ValueError raised. -/
def validate_item (d : Item) (vid : String) : Option Item :=
  if hasRequired d then some (stamp vid d) else none

/-- The body of the causal_qa.main loop for one unit: returns the records
written for the unit and the number of model-client invocations. -/
def processUnit (w : WUnit) : List Item × Nat :=
  if ¬(w.visExists ∧ w.audExists) then ([], 0)
  else if w.visText = "" ∨ w.audText = "" then ([], 0)
  else
    match w.response with
    | none => ([], 1)
    | some JVal.other => ([], 1)
    | some (JVal.arr items) =>
      if items.length ≠ 2 then ([], 1)
      else (appendLoop (fun d => validate_item d w.vid) items, 1)

/-- The resume set: video_id of every parseable ledger line. -/
def doneIds (ledger : List Item) : List String :=
  ledger.filterMap (fun r => r.video_id)

/-- causal_qa.main over an existing ledger: filter out completed ids, then
process the pending units in order.  Result: (records appended to the
ledger, model calls made). -/
def runPipeline (ledger : List Item) (units : List WUnit) : List Item × Nat :=
  runUnits processUnit
    (units.filter (fun w => decide (w.vid ∉ doneIds ledger)))

end Causal

/-! ## unanswerable_qa.py -/

namespace Unanswerable

/-- One work unit of unanswerable_qa.main.  Unlike causal_qa there is no
empty-caption guard: the texts are read and used directly. -/
structure WUnit where
  vid : String
  visExists : Bool
  audExists : Bool
  visText : String
  audText : String
  transcript : String
  response : Option JVal
deriving DecidableEq

/-- validate_item of unanswerable_qa.py: the six keys must be present and
the options dict must have exactly 4 entries; then stamp. -/
def validate_item (d : Item) (vid : String) : Option Item :=
  if Causal.hasRequired d then
    if (d.options.getD []).length ≠ 4 then none
    else some { d with video_id := some vid, category := some "unanswerability" }
  else none

/-- The body of the unanswerable_qa.main loop for one unit. -/
def processUnit (w : WUnit) : List Item × Nat :=
  if ¬(w.visExists ∧ w.audExists) then ([], 0)
  else
    match w.response with
    | none => ([], 1)
    | some JVal.other => ([], 1)
    | some (JVal.arr items) =>
      if items.length ≠ 2 then ([], 1)
      else (appendLoop (fun d => validate_item d w.vid) items, 1)

/-- unanswerable_qa.main over an existing ledger. -/
def runPipeline (ledger : List Item) (units : List WUnit) : List Item × Nat :=
  runUnits processUnit
    (units.filter (fun w => decide (w.vid ∉ Causal.doneIds ledger)))

end Unanswerable

/-! ## pitch_timbre_qa.py -/

namespace Pitch

/-- One work unit of pitch_timbre_qa.main: enumerated from the visual
caption files, so only the audio companion can be missing.  There is no
empty-text guard in this script. -/
structure WUnit where
  vid : String
  audExists : Bool
  visText : String
  audText : String
  response : Option JVal
deriving DecidableEq

/-- validate_item of pitch_timbre_qa.py: only four keys are required (not
video_id or category), then stamp. -/
def validate_item (d : Item) (vid : String) : Option Item :=
  if d.question.isSome ∧ d.options.isSome ∧ d.correct_answer_key.isSome ∧
      d.gold_reasoning.isSome then
    some { d with video_id := some vid, category := some "pitch_timbre_reasoning" }
  else none

/-- The body of the pitch_timbre_qa.main loop for one unit: a missing
audio caption skips before the call, but empty caption text does not. -/
def processUnit (w : WUnit) : List Item × Nat :=
  if ¬w.audExists then ([], 0)
  else
    match w.response with
    | none => ([], 1)
    | some JVal.other => ([], 1)
    | some (JVal.arr items) =>
      if items.length ≠ 3 then ([], 1)
      else (appendLoop (fun d => validate_item d w.vid) items, 1)

end Pitch

/-! ## tempo_sync_qa.py -/

namespace TempoSync

/-- The parsed JSON object returned by gpt4o_request, as shuffle and main
use it: an options dict and the correct answer key. -/
structure QA where
  options : List (String × String)
  correct_answer_key : String
deriving DecidableEq

/-- A record appended by tempo_sync_qa.main: the (possibly shuffled) QA
plus the update stamps. -/
structure TRecord where
  qa : QA
  video_id : String
  category : String
  sync_status : String
deriving DecidableEq

/-- One work unit: caption texts for one aligned or misaligned clip and
the model-response oracle (none = exception, falsy value, or retries
exhausted). -/
structure TUnit where
  vid : String
  aligned : Bool
  visText : String
  audText : String
  response : Option QA
deriving DecidableEq

/-- Label of position idx in the string ABCD, out of range raising. -/
def labelOf (i : Nat) : String :=
  (["A", "B", "C", "D"] : List String).getD i ""

/-- The new_opts dict built by the shuffle loop: relabel the shuffled
entries with consecutive letters. -/
def relabel : Nat → List (String × String) → List (String × String)
  | _, [] => []
  | i, (_, t) :: rest => (labelOf i, t) :: relabel (i + 1) rest

/-- The new_key computed by the shuffle loop: the label of the last
shuffled entry whose text equals the correct text. -/
def findLastLabel : Nat → String → List (String × String) → Option String
  | _, _, [] => none
  | i, ctext, (_, t) :: rest =>
    match findLastLabel (i + 1) ctext rest with
    | some lbl => some lbl
    | none => if t = ctext then some (labelOf i) else none

/-- shuffle_qa_options of tempo_sync_qa.py.  The in-place random.shuffle
is modelled by passing the shuffled entry list explicitly.  Every failure
(missing key, more than four options raising IndexError, lost correct
answer) is caught and returns the dict unchanged. -/
def shuffle_qa_options (qa : QA) (shuffled : List (String × String)) : QA :=
  match lookupOpt qa.options qa.correct_answer_key with
  | none => qa
  | some ctext =>
    if shuffled.length ≤ 4 then
      match findLastLabel 0 ctext shuffled with
      | none => qa
      | some lbl => { options := relabel 0 shuffled, correct_answer_key := lbl }
    else qa

/-- The body of the tempo_sync_qa.main loop for one unit.  The shuffle
permutation is a parameter standing for random.shuffle. -/
def processUnit (σ : List (String × String) → List (String × String))
    (u : TUnit) : List TRecord × Nat :=
  if u.visText = "" ∨ u.audText = "" then ([], 0)
  else
    match u.response with
    | none => ([], 1)
    | some qa =>
      ([{ qa := shuffle_qa_options qa (σ qa.options),
          video_id := u.vid,
          category := "tempo_av_sync_analysis",
          sync_status := if u.aligned then "Aligned" else "Misaligned" }], 1)

/-- tempo_sync_qa.main: the ledger is opened in append mode but never
read — there is no resume filter, every unit is processed. -/
def runPipeline (σ : List (String × String) → List (String × String))
    (ledger : List TRecord) (units : List TUnit) : List TRecord × Nat :=
  runUnits (processUnit σ) units

end TempoSync

/-! ## The backoff-wrapped model clients

Every script wraps its OpenAI call in backoff.on_exception(backoff.expo,
E, max_tries=N): the call is attempted, an exception of class E triggers
a backoff sleep and a retry while fewer than N attempts have been made,
and any other exception, or the N-th failure, propagates.  The scripts
other than qa_generation/id_generation.py use E = openai.RateLimitError;
id_generation.py uses E = openai.OpenAIError, which auth and
malformed-request errors also subclass. -/

namespace Retry

/-- Outcome of one underlying API attempt.  apiError stands for any
OpenAIError that is not a rate limit (auth failure, malformed request). -/
inductive Outcome where
  | success : Outcome
  | rateLimit : Outcome
  | apiError : Outcome
deriving DecidableEq

/-- Retry predicate of the backoff decorator keyed on RateLimitError
(causal, unanswerable, pitch, performer, tempo-sync, cr, psp, tpr, tsa,
evaluation). -/
def retryable_gen (o : Outcome) : Bool := o = Outcome.rateLimit

/-- Retry predicate of the backoff decorator in id_generation.py, keyed
on OpenAIError: every modelled failure is an OpenAIError. -/
def retryable_id (o : Outcome) : Bool :=
  o = Outcome.rateLimit ∨ o = Outcome.apiError

/-- The attempt loop of backoff.on_exception: outcomes gives the result
of the i-th underlying attempt (0-based); returns (attempts made, final
outcome).  fuel is the remaining attempt budget. -/
def attemptLoop (retryable : Outcome → Bool) (outcomes : Nat → Outcome) :
    Nat → Nat → Nat × Outcome
  | i, 0 => (i, Outcome.success)
  | i, fuel + 1 =>
    match outcomes i with
    | Outcome.success => (i + 1, Outcome.success)
    | _ =>
      if retryable (outcomes i) ∧ fuel ≠ 0 then
        attemptLoop retryable outcomes (i + 1) fuel
      else (i + 1, outcomes i)

/-- backoff.on_exception(…, max_tries=maxTries) around a call whose
attempt outcomes are given by the oracle. -/
def backoffRun (retryable : Outcome → Bool) (maxTries : Nat)
    (outcomes : Nat → Outcome) : Nat × Outcome :=
  attemptLoop retryable outcomes 0 maxTries

end Retry

/-! ## evaluation/evaluation.py -/

namespace Eval

/-- An input record of the evaluation pipeline, with the gold fields and
the named model answer and reasoning fields (none = key absent). -/
structure ERecord where
  correct_answer_key : Option String
  options : List (String × String)
  model_answer : Option String
  gold_reasoning : Option String
  model_reason : Option String
deriving DecidableEq

/-- Oracle for the model-client and scorer results used while evaluating
one record: the answer-equivalence verdict, the factual-consistency dict,
the two sanitizer outputs and the entailment probability. -/
structure Oracle where
  is_correct : Bool
  factual_score : ℚ
  factual_explanation : String
  sanitized_gt : String
  sanitized_gen : String
  nli_entail : ℚ
deriving DecidableEq

/-- The enriched record appended to processed_records. -/
structure OutRecord where
  base : ERecord
  is_correct : Bool
  factual_score : ℚ
  factual_explanation : String
  core_score : ℚ
  core_explanation : Option String
  sanitized_gold : Option String
  sanitized_generated : Option String
deriving DecidableEq

/-- Python truthiness of an optional string field. -/
def present (s : Option String) : Bool :=
  match s with
  | some t => ¬(t = "")
  | none => false

/-- The correct-answer text: item options get correct_answer_key. -/
def ctextOf (r : ERecord) : Option String :=
  match r.correct_answer_key with
  | some k => lookupOpt r.options k
  | none => none

/-- One iteration of the evaluation loop: returns (the enriched record,
or none when the item is skipped for missing data; model-client calls
made; Semantic Scorer calls made). -/
def evalStep (o : Oracle) (r : ERecord) : Option OutRecord × Nat × Nat :=
  if ¬(present r.correct_answer_key ∧ present (ctextOf r) ∧
      present r.model_answer ∧ present r.gold_reasoning ∧
      present r.model_reason) then (none, 0, 0)
  else if o.is_correct then
    (some { base := r, is_correct := true,
            factual_score := o.factual_score,
            factual_explanation := o.factual_explanation,
            core_score := o.nli_entail,
            core_explanation := none,
            sanitized_gold := some o.sanitized_gt,
            sanitized_generated := some o.sanitized_gen }, 4, 1)
  else
    (some { base := r, is_correct := false,
            factual_score := 0,
            factual_explanation := "Answer was incorrect; not evaluated.",
            core_score := 0,
            core_explanation := some "Answer was incorrect; not evaluated.",
            sanitized_gold := none,
            sanitized_generated := none }, 1, 0)

/-- A record as the final-statistics block reads it, through dict-get
chains with defaults. -/
structure StatRecord where
  is_correct : Option Bool
  factual_score : Option ℚ
  core_score : Option ℚ
deriving DecidableEq

/-- 1.0 if rec answer_correctness is_correct is truthy else 0.0. -/
def answerScore (r : StatRecord) : ℚ :=
  if r.is_correct.getD false then 1 else 0

/-- factual_consistency_score with default 0.0. -/
def factualScore (r : StatRecord) : ℚ := r.factual_score.getD 0

/-- core_inference_score with default 0.0. -/
def coreScore (r : StatRecord) : ℚ := r.core_score.getD 0

/-- The final-statistics block: on a non-empty processed_records list,
each average is sum of the score list over its length, times 100. -/
def finalStats (recs : List StatRecord) : Option (ℚ × ℚ × ℚ) :=
  match recs with
  | [] => none
  | _ =>
    let answer_scores := recs.map answerScore
    let factual_scores := recs.map factualScore
    let inference_scores := recs.map coreScore
    some (answer_scores.sum / recs.length * 100,
          factual_scores.sum / recs.length * 100,
          inference_scores.sum / recs.length * 100)

/-- The arithmetic mean of a rational list, as the spec words it. -/
def specMean (l : List ℚ) : ℚ := l.sum / l.length

/-- Rounding to two decimal places, as the percent format string does. -/
def round2 (q : ℚ) : ℚ := (round (q * 100) : ℤ) / 100

end Eval

/-! ## Concrete inputs used by the claim theorems, witnesses and
counterexamples -/

def c1Ledger : List Item :=
  [{ question := some "q0", options := some [("A", "a0")],
     correct_answer_key := some "A", gold_reasoning := some "g0",
     video_id := some "v1", category := some "causal_reasoning" }]

def c1Units : List Causal.WUnit :=
  [{ vid := "v1", visExists := true, audExists := true, visText := "vis",
     audText := "aud", transcript := "t", response := some (JVal.arr []) }]

def c1TempoLedger : List TempoSync.TRecord :=
  [{ qa := { options := [("A", "in sync")], correct_answer_key := "A" },
     video_id := "v1", category := "tempo_av_sync_analysis",
     sync_status := "Aligned" }]

def c1TempoUnits : List TempoSync.TUnit :=
  [{ vid := "v1", aligned := true, visText := "vis", audText := "aud",
     response := some { options := [("A", "in sync"), ("B", "off")],
                        correct_answer_key := "A" } }]

def c2Oracle : Eval.Oracle :=
  { is_correct := false, factual_score := 1/2, factual_explanation := "e",
    sanitized_gt := "sg", sanitized_gen := "sn", nli_entail := 3/4 }

def c2Record : Eval.ERecord :=
  { correct_answer_key := some "A", options := [("A", "x")],
    model_answer := some "m", gold_reasoning := some "g",
    model_reason := some "r" }

def c2Out : Eval.OutRecord :=
  { base := c2Record, is_correct := false, factual_score := 0,
    factual_explanation := "Answer was incorrect; not evaluated.",
    core_score := 0,
    core_explanation := some "Answer was incorrect; not evaluated.",
    sanitized_gold := none, sanitized_generated := none }

def c4Item : Item :=
  { question := some "q", options := some [("A", "x"), ("B", "y"), ("C", "z")],
    correct_answer_key := some "A", gold_reasoning := some "g",
    video_id := some "placeholder", category := some "placeholder" }

def c4Unit : Causal.WUnit :=
  { vid := "v4", visExists := true, audExists := true, visText := "vis",
    audText := "aud", transcript := "",
    response := some (JVal.arr [c4Item, c4Item]) }

def c4OtherUnit : Causal.WUnit :=
  { vid := "v4b", visExists := true, audExists := true, visText := "vis",
    audText := "aud", transcript := "", response := some JVal.other }

def c4MissingItem : Item :=
  { question := none, options := some [("A", "x")],
    correct_answer_key := some "A", gold_reasoning := some "g",
    video_id := some "v", category := some "c" }

def c4PitchUnit : Pitch.WUnit :=
  { vid := "v4c", audExists := true, visText := "vis", audText := "aud",
    response := some (JVal.arr [c4Item]) }

def c4FirstBadUnit : Causal.WUnit :=
  { vid := "v4d", visExists := true, audExists := true, visText := "vis",
    audText := "aud", transcript := "",
    response := some (JVal.arr [c4MissingItem, c4Item]) }

def c5Item : Item :=
  { question := some "q",
    options := some [("A", "w"), ("B", "x"), ("C", "y"), ("D", "z")],
    correct_answer_key := some "B", gold_reasoning := some "g",
    video_id := some "pl", category := some "pl" }

def c5Unit : Unanswerable.WUnit :=
  { vid := "v5", visExists := true, audExists := true, visText := "",
    audText := "", transcript := "",
    response := some (JVal.arr [c5Item, c5Item]) }

def c5Out : Item :=
  { c5Item with video_id := some "v5", category := some "unanswerability" }

def c5BadItem : Item :=
  { question := some "q", options := some [("A", "x"), ("B", "y"), ("C", "z")],
    correct_answer_key := some "E", gold_reasoning := some "g",
    video_id := some "pl", category := some "pl" }

def c5BadUnit : Causal.WUnit :=
  { vid := "v5b", visExists := true, audExists := true, visText := "vis",
    audText := "aud", transcript := "",
    response := some (JVal.arr [c5BadItem, c5BadItem]) }

def c6Good : Item :=
  { question := some "q1",
    options := some [("A", "w"), ("B", "x"), ("C", "y"), ("D", "z")],
    correct_answer_key := some "A", gold_reasoning := some "g1",
    video_id := some "pl", category := some "pl" }

def c6Bad : Item :=
  { question := some "q2",
    options := some [("A", "w"), ("B", "x"), ("C", "y"), ("D", "z")],
    correct_answer_key := some "A", gold_reasoning := none,
    video_id := some "pl", category := some "pl" }

def c6Unit : Causal.WUnit :=
  { vid := "v6", visExists := true, audExists := true, visText := "vis",
    audText := "aud", transcript := "t",
    response := some (JVal.arr [c6Good, c6Bad]) }

def c6AllGoodUnit : Causal.WUnit :=
  { vid := "v6b", visExists := true, audExists := true, visText := "vis",
    audText := "aud", transcript := "t",
    response := some (JVal.arr [c6Good, c6Good]) }

def c8PitchUnit : Pitch.WUnit :=
  { vid := "v8", audExists := true, visText := "vis", audText := "",
    response := some (JVal.arr []) }

def c8CausalUnit : Causal.WUnit :=
  { vid := "v8b", visExists := false, audExists := true, visText := "vis",
    audText := "aud", transcript := "t", response := none }

def c8PitchMissing : Pitch.WUnit :=
  { vid := "v8c", audExists := false, visText := "vis", audText := "aud",
    response := none }

def c9Records : List Eval.StatRecord :=
  [{ is_correct := some true, factual_score := some 0, core_score := some 0 },
   { is_correct := some true, factual_score := some 0, core_score := some 0 },
   { is_correct := some false, factual_score := some 0, core_score := some 0 }]

def c10Qa : TempoSync.QA :=
  { options := [("A", "w"), ("B", "x"), ("C", "y"), ("D", "z")],
    correct_answer_key := "C" }

def c10Sh : List (String × String) :=
  [("D", "z"), ("C", "y"), ("B", "x"), ("A", "w")]

/-! # Helper lemmas -/

/-! ### Helper lemmas about the normalizer -/

theorem head?_dropWhile_false {α : Type} (p : α → Bool) (l : List α) (a : α)
    (h : (l.dropWhile p).head? = some a) : p a = false := by
  induction l with
  | nil => simp at h
  | cons x t ih =>
    rw [List.dropWhile_cons] at h
    by_cases hx : p x
    · simp [hx] at h; exact ih h
    · simp [hx] at h
      subst h
      simpa using hx

theorem dropWhile_dropWhile_self {α : Type} (p : α → Bool) (l : List α) :
    (l.dropWhile p).dropWhile p = l.dropWhile p := by
  cases h : l.dropWhile p with
  | nil => simp
  | cons a t =>
    have ha : p a = false := head?_dropWhile_false p l a (by rw [h]; rfl)
    simp [List.dropWhile_cons, ha]

theorem mem_of_mem_dropWhile {α : Type} (p : α → Bool) (l : List α) (a : α)
    (h : a ∈ l.dropWhile p) : a ∈ l := by
  induction l with
  | nil => simp at h
  | cons x t ih =>
    rw [List.dropWhile_cons] at h
    by_cases hx : p x
    · simp [hx] at h
      exact List.mem_cons_of_mem x (ih h)
    · simpa [hx] using h

theorem mem_of_mem_pyStrip (l : List Char) (a : Char) (h : a ∈ pyStrip l) :
    a ∈ l := by
  unfold pyStrip at h
  rw [List.mem_reverse] at h
  have h2 := mem_of_mem_dropWhile _ _ _ h
  rw [List.mem_reverse] at h2
  exact mem_of_mem_dropWhile _ _ _ h2

theorem pyStrip_idem (l : List Char) : pyStrip (pyStrip l) = pyStrip l := by
  have hsplit : l.dropWhile isPyWs =
      ((l.dropWhile isPyWs).reverse.dropWhile isPyWs).reverse ++
        ((l.dropWhile isPyWs).reverse.takeWhile isPyWs).reverse := by
    have h1 : (l.dropWhile isPyWs).reverse.takeWhile isPyWs ++
        (l.dropWhile isPyWs).reverse.dropWhile isPyWs =
        (l.dropWhile isPyWs).reverse :=
      List.takeWhile_append_dropWhile isPyWs (l.dropWhile isPyWs).reverse
    calc l.dropWhile isPyWs
        = (l.dropWhile isPyWs).reverse.reverse := by rw [List.reverse_reverse]
      _ = ((l.dropWhile isPyWs).reverse.takeWhile isPyWs ++
            (l.dropWhile isPyWs).reverse.dropWhile isPyWs).reverse := by rw [h1]
      _ = ((l.dropWhile isPyWs).reverse.dropWhile isPyWs).reverse ++
            ((l.dropWhile isPyWs).reverse.takeWhile isPyWs).reverse := by
          rw [List.reverse_append]
  have hfix : (((l.dropWhile isPyWs).reverse.dropWhile isPyWs).reverse).dropWhile
      isPyWs = ((l.dropWhile isPyWs).reverse.dropWhile isPyWs).reverse := by
    cases hR : ((l.dropWhile isPyWs).reverse.dropWhile isPyWs).reverse with
    | nil => simp
    | cons a t =>
      have haL : (l.dropWhile isPyWs).head? = some a := by
        rw [hsplit, hR]; rfl
      have ha : isPyWs a = false :=
        head?_dropWhile_false isPyWs l a haL
      rw [List.dropWhile_cons, ha]
      simp
  show ((((((l.dropWhile isPyWs).reverse.dropWhile isPyWs).reverse).dropWhile
      isPyWs).reverse).dropWhile isPyWs).reverse = _
  rw [hfix, List.reverse_reverse, dropWhile_dropWhile_self]
  rfl

theorem ticksAt_mem (l : List Char) (h : ticksAt l = true) : tick ∈ l := by
  match l with
  | [] => simp [ticksAt] at h
  | [a] => simp [ticksAt] at h
  | [a, b] => simp [ticksAt] at h
  | a :: b :: c :: t =>
    simp only [ticksAt, decide_eq_true_eq] at h
    obtain ⟨h1, _, _⟩ := h
    subst h1
    exact List.mem_cons_self _ _

theorem fenceAux_no_tick (fuel : Nat) :
    ∀ (b : Bool) (l : List Char), tick ∉ l → fenceAux fuel b l = l := by
  induction fuel with
  | zero =>
    intro b l _
    cases l <;> rfl
  | succ n ih =>
    intro b l hl
    cases l with
    | nil => rfl
    | cons c rest =>
      have ht : ticksAt (c :: rest) = false := by
        cases h : ticksAt (c :: rest)
        · rfl
        · exact absurd (ticksAt_mem _ h) hl
      have ht2 : ticksAt ((c :: rest).dropWhile isPyWs) = false := by
        cases h : ticksAt ((c :: rest).dropWhile isPyWs)
        · rfl
        · exact absurd (mem_of_mem_dropWhile _ _ _ (ticksAt_mem _ h)) hl
      have hrest : tick ∉ rest := fun hm => hl (List.mem_cons_of_mem c hm)
      have h1 : ¬(b = true ∧ ticksAt (c :: rest) = true) := by simp [ht]
      have h2 : ¬(ticksAt ((c :: rest).dropWhile isPyWs) = true ∧
          dollarAt (((c :: rest).dropWhile isPyWs).drop 3) = true) := by
        simp [ht2]
      rw [fenceAux, if_neg h1, if_neg h2, ih _ rest hrest]

theorem commaAux_no_comma (close : Char) (fuel : Nat) :
    ∀ (l : List Char), ',' ∉ l → commaAux close fuel l = l := by
  induction fuel with
  | zero =>
    intro l _
    cases l <;> rfl
  | succ n ih =>
    intro l hl
    cases l with
    | nil => rfl
    | cons c rest =>
      have hc : (c = ',') = False := by
        simp only [eq_iff_iff, iff_false]
        intro h
        exact hl (h ▸ List.mem_cons_self c rest)
      have : ',' ∉ rest := fun hm => hl (List.mem_cons_of_mem c hm)
      rw [commaAux]
      simp only [hc, if_false]
      rw [ih rest this]

theorem fenceSub_no_tick (l : List Char) (h : tick ∉ l) : fenceSub l = l :=
  fenceAux_no_tick l.length true l h

theorem commaSub_no_comma (close : Char) (l : List Char) (h : ',' ∉ l) :
    commaSub close l = l :=
  commaAux_no_comma close l.length l h

theorem normalise_eq_pyStrip (l : List Char)
    (hc : ',' ∉ l) (ht : tick ∉ l) : normalise_json_str l = pyStrip l := by
  have hc1 : ',' ∉ pyStrip l := fun hm => hc (mem_of_mem_pyStrip l _ hm)
  have ht1 : tick ∉ pyStrip l := fun hm => ht (mem_of_mem_pyStrip l _ hm)
  unfold normalise_json_str
  rw [fenceSub_no_tick _ ht1, commaSub_no_comma '}' _ hc1,
    commaSub_no_comma ']' _ hc1]


theorem appendLoop_eq (val : Item → Option Item) (items : List Item) :
    appendLoop val items =
      (items.takeWhile (fun d => (val d).isSome)).map
        (fun d => (val d).getD d) := by
  induction items with
  | nil => rfl
  | cons d rest ih =>
    rw [appendLoop]
    cases h : val d with
    | none => simp [List.takeWhile_cons, h]
    | some d2 => simp [List.takeWhile_cons, h, ih]

theorem runUnits_records {α β : Type} (proc : α → List β × Nat)
    (units : List α) :
    (runUnits proc units).1 = (units.map (fun u => (proc u).1)).flatten := by
  induction units with
  | nil => rfl
  | cons u us ih => simp [runUnits, ih]

theorem runUnits_calls {α β : Type} (proc : α → List β × Nat)
    (units : List α) :
    (runUnits proc units).2 = (units.map (fun u => (proc u).2)).sum := by
  induction units with
  | nil => rfl
  | cons u us ih => simp [runUnits, ih]

theorem mem_appendLoop (val : Item → Option Item) (items : List Item)
    (r : Item) (h : r ∈ appendLoop val items) :
    ∃ d, val d = some r := by
  rw [appendLoop_eq] at h
  obtain ⟨d, hd, hr⟩ := List.mem_map.mp h
  have hsome : (val d).isSome = true := by
    have h3 := List.mem_takeWhile_imp (l := items)
      (p := fun d => (val d).isSome) hd
    simpa using h3
  obtain ⟨d2, h2⟩ := Option.isSome_iff_exists.mp hsome
  refine ⟨d, ?_⟩
  rw [h2] at hr ⊢
  simp only [Option.getD_some] at hr
  rw [hr]


namespace Causal

theorem processUnit_vid (w : WUnit) (r : Item)
    (h : r ∈ (processUnit w).1) : r.video_id = some w.vid := by
  unfold processUnit at h
  by_cases h1 : w.visExists ∧ w.audExists
  · simp only [h1, not_true_eq_false, if_false] at h
    by_cases h2 : w.visText = "" ∨ w.audText = ""
    · simp [h2] at h
    · simp only [h2, if_false] at h
      cases hr : w.response with
      | none => rw [hr] at h; simp at h
      | some v =>
        cases v with
        | other => rw [hr] at h; simp at h
        | arr items =>
          rw [hr] at h
          simp only at h
          by_cases hlen : items.length ≠ 2
          · simp [hlen] at h
          · simp only [hlen, if_false] at h
            obtain ⟨d, hd⟩ := mem_appendLoop _ _ _ h
            unfold validate_item at hd
            by_cases hreq : hasRequired d
            · simp only [hreq, if_true] at hd
              cases hd
              rfl
            · simp [hreq] at hd
  · simp [h1] at h

end Causal

namespace Unanswerable

theorem validate_item_options (d : Item) (vid : String) (r : Item)
    (h : validate_item d vid = some r) : (r.options.getD []).length = 4 := by
  unfold validate_item at h
  by_cases hreq : Causal.hasRequired d
  · simp only [hreq, if_true] at h
    by_cases hlen : (d.options.getD []).length ≠ 4
    · simp [hlen] at h
    · simp only [hlen, if_false] at h
      cases h
      simpa using hlen
  · simp [hreq] at h

theorem processUnit_options (w : WUnit) (r : Item)
    (h : r ∈ (processUnit w).1) : (r.options.getD []).length = 4 := by
  unfold processUnit at h
  by_cases h1 : w.visExists ∧ w.audExists
  · simp only [h1, not_true_eq_false, if_false] at h
    cases hr : w.response with
    | none => rw [hr] at h; simp at h
    | some v =>
      cases v with
      | other => rw [hr] at h; simp at h
      | arr items =>
        rw [hr] at h
        simp only at h
        by_cases hlen : items.length ≠ 2
        · simp [hlen] at h
        · simp only [hlen, if_false] at h
          obtain ⟨d, hd⟩ := mem_appendLoop _ _ _ h
          exact validate_item_options d w.vid r hd
  · simp [h1] at h

end Unanswerable

namespace TempoSync

/-! ### Helper lemmas about the shuffle -/

theorem labelOf_lt_mem (i : Nat) (h : i < 4) :
    labelOf i ∈ (["A", "B", "C", "D"] : List String) := by
  interval_cases i <;> simp [labelOf]

theorem labelOf_inj (i j : Nat) (hi : i < 4) (hj : j < 4)
    (h : labelOf i = labelOf j) : i = j := by
  interval_cases i <;> interval_cases j <;> simp_all [labelOf]

theorem relabel_map_snd (l : List (String × String)) :
    ∀ i, (relabel i l).map Prod.snd = l.map Prod.snd := by
  induction l with
  | nil => intro i; rfl
  | cons p rest ih =>
    intro i
    cases p with
    | mk k t => simp [relabel, ih]

theorem relabel_length (l : List (String × String)) :
    ∀ i, (relabel i l).length = l.length := by
  induction l with
  | nil => intro i; rfl
  | cons p rest ih =>
    intro i
    cases p with
    | mk k t => simp [relabel, ih]

theorem mem_relabel (l : List (String × String)) :
    ∀ i p, p ∈ relabel i l → ∃ j, j < l.length ∧ p.1 = labelOf (i + j) := by
  induction l with
  | nil => intro i p h; simp [relabel] at h
  | cons q rest ih =>
    intro i p h
    cases q with
    | mk k t =>
      rw [relabel] at h
      rcases List.mem_cons.mp h with h1 | h1
      · exact ⟨0, by simp, by rw [h1]; simp⟩
      · obtain ⟨j, hj, hp⟩ := ih (i + 1) p h1
        refine ⟨j + 1, by simp; omega, ?_⟩
        rw [hp]
        congr 1
        omega

theorem findLastLabel_isSome (ctext : String) (l : List (String × String))
    (h : ∃ p ∈ l, p.2 = ctext) : ∀ i, (findLastLabel i ctext l).isSome := by
  induction l with
  | nil => obtain ⟨p, hp, _⟩ := h; simp at hp
  | cons q rest ih =>
    intro i
    rw [findLastLabel]
    cases hrec : findLastLabel (i + 1) ctext rest with
    | some lbl => rfl
    | none =>
      obtain ⟨p, hp, hpt⟩ := h
      rcases List.mem_cons.mp hp with h1 | h1
      · subst h1
        simp [hpt]
      · have := ih ⟨p, h1, hpt⟩ (i + 1)
        rw [hrec] at this
        simp at this

theorem findLastLabel_spec (ctext : String) (l : List (String × String)) :
    ∀ i lbl, findLastLabel i ctext l = some lbl →
      ∃ j entry, l.get? j = some entry ∧ entry.2 = ctext ∧
        lbl = labelOf (i + j) ∧ j < l.length := by
  induction l with
  | nil => intro i lbl h; simp [findLastLabel] at h
  | cons q rest ih =>
    intro i lbl h
    rw [findLastLabel] at h
    cases hrec : findLastLabel (i + 1) ctext rest with
    | some lbl2 =>
      rw [hrec] at h
      cases h
      obtain ⟨j, entry, hget, hct, hl, hj⟩ := ih (i + 1) _ hrec
      refine ⟨j + 1, entry, by simpa using hget, hct, ?_, by simp; omega⟩
      rw [hl]
      congr 1
      omega
    | none =>
      rw [hrec] at h
      by_cases hq : q.2 = ctext
      · rw [if_pos hq] at h
        cases h
        exact ⟨0, q, rfl, hq, by simp, by simp⟩
      · rw [if_neg hq] at h
        cases h

theorem relabel_get? (l : List (String × String)) :
    ∀ i j, (relabel i l).get? j =
      (l.get? j).map (fun p => (labelOf (i + j), p.2)) := by
  induction l with
  | nil => intro i j; cases j <;> rfl
  | cons q rest ih =>
    intro i j
    cases q with
    | mk k t =>
      cases j with
      | zero => simp [relabel]
      | succ j2 =>
        rw [relabel]
        simp only [List.get?_cons_succ]
        rw [ih (i + 1) j2]
        congr 2
        funext p
        congr 2
        omega

theorem find?_relabel (l : List (String × String)) :
    ∀ i j entry, i + l.length ≤ 4 → l.get? j = some entry →
      (relabel i l).find? (fun p => decide (p.1 = labelOf (i + j))) =
        some (labelOf (i + j), entry.2) := by
  induction l with
  | nil => intro i j entry _ hget; simp at hget
  | cons q rest ih =>
    intro i j entry hbound hget
    cases q with
    | mk k t =>
      cases j with
      | zero =>
        simp only [List.get?_cons_zero] at hget
        cases hget
        rw [relabel]
        rw [List.find?_cons_of_pos _ (by simp)]
        simp
      | succ j2 =>
        simp only [List.get?_cons_succ] at hget
        have hj2 : j2 < rest.length := by
          have := List.get?_eq_some.mp hget
          exact this.1
        have hne : ¬(labelOf i = labelOf (i + (j2 + 1))) := by
          intro heq
          have hlen : (⟨k, t⟩ :: rest : List (String × String)).length =
              rest.length + 1 := rfl
          have hi : i < 4 := by rw [hlen] at hbound; omega
          have hij : i + (j2 + 1) < 4 := by rw [hlen] at hbound; omega
          have := labelOf_inj i (i + (j2 + 1)) hi hij heq
          omega
        rw [relabel]
        rw [List.find?_cons_of_neg _ (by simpa using hne)]
        have hbound2 : (i + 1) + rest.length ≤ 4 := by
          have hlen : (⟨k, t⟩ :: rest : List (String × String)).length =
              rest.length + 1 := rfl
          rw [hlen] at hbound
          omega
        have := ih (i + 1) j2 entry hbound2 hget
        have harith : (i + 1) + j2 = i + (j2 + 1) := by omega
        rw [harith] at this
        exact this

end TempoSync

namespace Retry

theorem attemptLoop_all_rl (outcomes : Nat → Outcome)
    (hall : ∀ i, outcomes i = Outcome.rateLimit) :
    ∀ fuel i, fuel ≠ 0 →
      attemptLoop retryable_gen outcomes i fuel =
        (i + fuel, Outcome.rateLimit) := by
  intro fuel
  induction fuel with
  | zero => intro i h; exact absurd rfl h
  | succ n ih =>
    intro i _
    rw [attemptLoop]
    by_cases hn : n = 0
    · subst hn
      simp [hall i, retryable_gen]
    · simp only [hall i, retryable_gen]
      rw [if_pos (by simp [hn])]
      rw [ih (i + 1) hn]
      have harith : i + 1 + n = i + (n + 1) := by omega
      rw [harith]

end Retry

theorem filter_eq_filter_filter {α : Type} (p q : α → Bool) (l : List α)
    (h : ∀ u ∈ l, p u = true → q u = true) :
    l.filter p = (l.filter q).filter p := by
  induction l with
  | nil => rfl
  | cons a t ih =>
    have ht : ∀ u ∈ t, p u = true → q u = true :=
      fun u hu => h u (List.mem_cons_of_mem a hu)
    rw [List.filter_cons, List.filter_cons]
    by_cases hp : p a = true
    · have hq : q a = true := h a (List.mem_cons_self a t) hp
      rw [if_pos hp, if_pos hq, List.filter_cons, if_pos hp, ih ht]
    · rw [if_neg hp]
      by_cases hq : q a = true
      · rw [if_pos hq, List.filter_cons, if_neg hp, ih ht]
      · rw [if_neg hq, ih ht]

theorem mem_of_mem_takeWhile {α : Type} (p : α → Bool) (l : List α) (a : α)
    (h : a ∈ l.takeWhile p) : a ∈ l := by
  induction l with
  | nil => simp at h
  | cons x t ih =>
    rw [List.takeWhile_cons] at h
    by_cases hx : p x
    · simp only [hx, if_true] at h
      rcases List.mem_cons.mp h with h | h
      · exact h ▸ List.mem_cons_self x t
      · exact List.mem_cons_of_mem x (ih h)
    · simp [hx] at h

/-! # Claim theorems -/

/-- C1 counterexample: the top-level tempo-sync pipeline has no resume
filter.  With a ledger already holding a record for unit v1, re-running
the pipeline on v1 makes one model call (not zero) and appends a second
record with the same video_id. -/
theorem c1_tempo_no_resume_counterexample :
    (TempoSync.runPipeline id c1TempoLedger c1TempoUnits).2 = 1 ∧
    ¬((TempoSync.runPipeline id c1TempoLedger c1TempoUnits).2 = 0) ∧
    ((c1TempoLedger ++ (TempoSync.runPipeline id c1TempoLedger
        c1TempoUnits).1).filter
      (fun r => decide (r.video_id = "v1"))).length = 2 := by
  decide

/-- C1 amended: resume correctness holds for the pipelines that load
completed ids from their ledger, here the causal pipeline: a unit whose
identity is already in the ledger is filtered out, so the run is
unchanged if all units with that identity are removed (zero calls for
them), and no appended record carries that identity. -/
theorem c1_resume_correctness_amended (ledger : List Item)
    (units : List Causal.WUnit) (v : String)
    (h : v ∈ Causal.doneIds ledger) :
    Causal.runPipeline ledger units =
      Causal.runPipeline ledger
        (units.filter (fun u => decide (¬ u.vid = v))) ∧
    ∀ r ∈ (Causal.runPipeline ledger units).1, ¬ r.video_id = some v := by
  constructor
  · unfold Causal.runPipeline
    congr 1
    apply filter_eq_filter_filter
    intro u _ hp
    simp only [decide_eq_true_eq] at hp ⊢
    intro heq
    exact hp (heq ▸ h)
  · intro r hr
    rw [Causal.runPipeline, runUnits_records] at hr
    rw [List.mem_flatten] at hr
    obtain ⟨lr, hlr, hr2⟩ := hr
    rw [List.mem_map] at hlr
    obtain ⟨u, hu, rfl⟩ := hlr
    have hvid := Causal.processUnit_vid u r hr2
    have hu2 : u.vid ∉ Causal.doneIds ledger := by
      have h3 := List.of_mem_filter hu
      simpa using h3
    rw [hvid]
    intro heq
    apply hu2
    have h4 : u.vid = v := by
      injection heq
    exact h4 ▸ h

/-- C1 witness: the amended theorem applied at a concrete ledger holding
v1 and a unit list containing v1. -/
theorem c1_resume_correctness_amended_witness :
    (Causal.runPipeline c1Ledger c1Units =
      Causal.runPipeline c1Ledger
        (c1Units.filter (fun u => decide (¬ u.vid = "v1")))) ∧
    ∀ r ∈ (Causal.runPipeline c1Ledger c1Units).1,
      ¬ r.video_id = some "v1" :=
  c1_resume_correctness_amended c1Ledger c1Units "v1" (by decide)

/-- C3 counterexample: normalise_json_str is not idempotent.  On the
string of a comma, a comma and a closing brace, the first pass removes
only the second comma (the scan resumes after each replacement), and a
second pass removes the remaining comma. -/
theorem c3_normalise_not_idempotent_counterexample :
    normalise_json_str [',', ',', '}'] = [',', '}'] ∧
    normalise_json_str (normalise_json_str [',', ',', '}']) = ['}'] ∧
    ¬(normalise_json_str (normalise_json_str [',', ',', '}']) =
        normalise_json_str [',', ',', '}']) := by
  decide

/-- C3 amended: normalise_json_str is idempotent on every input that
contains no comma and no backtick; its strip and fence passes are then
inert after the first application.  (In general a single trailing-comma
pass can create a new comma-brace match, so idempotence fails.) -/
theorem c3_normalise_idempotent_amended (l : List Char)
    (hc : ',' ∉ l) (ht : tick ∉ l) :
    normalise_json_str (normalise_json_str l) = normalise_json_str l := by
  have h1 := normalise_eq_pyStrip l hc ht
  rw [h1]
  have hc2 : ',' ∉ pyStrip l := fun hm => hc (mem_of_mem_pyStrip l _ hm)
  have ht2 : tick ∉ pyStrip l := fun hm => ht (mem_of_mem_pyStrip l _ hm)
  rw [normalise_eq_pyStrip _ hc2 ht2]
  exact pyStrip_idem l

/-- C3 witness: the amended idempotence at a concrete comma-free,
backtick-free input. -/
theorem c3_normalise_idempotent_amended_witness :
    normalise_json_str (normalise_json_str ['a', ' ', 'b']) =
      normalise_json_str ['a', ' ', 'b'] :=
  c3_normalise_idempotent_amended ['a', ' ', 'b'] (by decide) (by decide)

/-- C2: when the answer-equivalence check yields false, the written
record carries factual and core scores fixed at 0 with the fixed
explanation string, and only the one answer-check model call is made,
with no Semantic Scorer call. -/
theorem c2_evaluation_short_circuit (o : Eval.Oracle) (r : Eval.ERecord)
    (out : Eval.OutRecord) (h : (Eval.evalStep o r).1 = some out)
    (hfalse : out.is_correct = false) :
    out.factual_score = 0 ∧
    out.factual_explanation = "Answer was incorrect; not evaluated." ∧
    out.core_score = 0 ∧
    out.core_explanation = some "Answer was incorrect; not evaluated." ∧
    (Eval.evalStep o r).2 = (1, 0) := by
  by_cases hg : (Eval.present r.correct_answer_key ∧ Eval.present (Eval.ctextOf r) ∧
      Eval.present r.model_answer ∧ Eval.present r.gold_reasoning ∧
      Eval.present r.model_reason)
  · by_cases hc : o.is_correct = true
    · have he : Eval.evalStep o r =
          (some { base := r, is_correct := true,
                  factual_score := o.factual_score,
                  factual_explanation := o.factual_explanation,
                  core_score := o.nli_entail,
                  core_explanation := none,
                  sanitized_gold := some o.sanitized_gt,
                  sanitized_generated := some o.sanitized_gen }, 4, 1) := by
        unfold Eval.evalStep
        rw [if_neg (not_not_intro hg), if_pos hc]
      rw [he] at h
      simp only [Option.some.injEq] at h
      subst h
      exact Bool.noConfusion hfalse
    · have he : Eval.evalStep o r =
          (some { base := r, is_correct := false,
                  factual_score := 0,
                  factual_explanation := "Answer was incorrect; not evaluated.",
                  core_score := 0,
                  core_explanation := some "Answer was incorrect; not evaluated.",
                  sanitized_gold := none,
                  sanitized_generated := none }, 1, 0) := by
        unfold Eval.evalStep
        rw [if_neg (not_not_intro hg), if_neg hc]
      rw [he] at h ⊢
      simp only [Option.some.injEq] at h
      subst h
      exact ⟨rfl, rfl, rfl, rfl, rfl⟩
  · have he : Eval.evalStep o r = (none, 0, 0) := by
      unfold Eval.evalStep
      rw [if_pos hg]
    rw [he] at h
    simp at h

/-- C2 witness: the short-circuit theorem at a concrete record and an
oracle answering false. -/
theorem c2_evaluation_short_circuit_witness :
    c2Out.factual_score = 0 ∧
    c2Out.factual_explanation = "Answer was incorrect; not evaluated." ∧
    c2Out.core_score = 0 ∧
    c2Out.core_explanation = some "Answer was incorrect; not evaluated." ∧
    (Eval.evalStep c2Oracle c2Record).2 = (1, 0) :=
  c2_evaluation_short_circuit c2Oracle c2Record c2Out (by decide) (by decide)

/-- C4 counterexample: causal_qa validate_item never counts the options,
so a two-item response whose items carry only three options each passes
validation and both records are appended. -/
theorem c4_validation_counterexample :
    (c4Item.options.getD []).length = 3 ∧
    (Causal.processUnit c4Unit).1.length = 2 ∧
    ¬((Causal.processUnit c4Unit).1 = []) := by
  decide

/-- C4 amended: a non-list response or a wrong list length (2 for
causal, 3 for pitch) yields no appended records for the unit.  An
element missing a required key is rejected by validate_item, so no
appended record ever derives from such an element, and a response whose
first element misses a key appends nothing at all — though records
already written for a valid earlier part of the same response remain
(the prefix behavior of C6).  The exactly-4-options rejection is
enforced only by the unanswerable validator, not by the causal one. -/
theorem c4_validation_rejection_amended :
    (∀ w : Causal.WUnit, w.response = some JVal.other →
      (Causal.processUnit w).1 = []) ∧
    (∀ (w : Causal.WUnit) (items : List Item),
      w.response = some (JVal.arr items) → items.length ≠ 2 →
      (Causal.processUnit w).1 = []) ∧
    (∀ (d : Item) (vid : String), Causal.hasRequired d = false →
      Causal.validate_item d vid = none) ∧
    (∀ (w : Causal.WUnit) (d : Item) (rest : List Item),
      w.response = some (JVal.arr (d :: rest)) →
      Causal.hasRequired d = false →
      (Causal.processUnit w).1 = []) ∧
    (∀ (w : Causal.WUnit) (items : List Item) (r : Item),
      w.response = some (JVal.arr items) → r ∈ (Causal.processUnit w).1 →
      ∃ d ∈ items, Causal.hasRequired d = true ∧ r = Causal.stamp w.vid d) ∧
    (∀ (w : Pitch.WUnit) (items : List Item),
      w.response = some (JVal.arr items) → items.length ≠ 3 →
      (Pitch.processUnit w).1 = []) ∧
    (∀ (d : Item) (vid : String), (d.options.getD []).length ≠ 4 →
      Unanswerable.validate_item d vid = none) := by
  refine ⟨?_, ?_, ?_, ?_, ?_, ?_, ?_⟩
  · intro w h
    unfold Causal.processUnit
    rw [h]
    split_ifs <;> rfl
  · intro w items h hlen
    unfold Causal.processUnit
    rw [h]
    split_ifs <;>
      first
        | rfl
        | (show (if items.length ≠ 2 then (([] : List Item), 1)
             else (appendLoop (fun d => Causal.validate_item d w.vid)
               items, 1)).1 = []
           rw [if_pos hlen])
  · intro d vid h
    unfold Causal.validate_item
    rw [if_neg (by simp [h])]
  · intro w d rest h hreq
    have hnone : Causal.validate_item d w.vid = none := by
      unfold Causal.validate_item
      rw [if_neg (by simp [hreq])]
    unfold Causal.processUnit
    rw [h]
    split_ifs <;>
      first
        | rfl
        | (show (if (d :: rest).length ≠ 2 then (([] : List Item), 1)
             else (appendLoop (fun x => Causal.validate_item x w.vid)
               (d :: rest), 1)).1 = []
           by_cases hlen : (d :: rest).length ≠ 2
           · rw [if_pos hlen]
           · rw [if_neg hlen]
             show appendLoop (fun x => Causal.validate_item x w.vid)
               (d :: rest) = []
             rw [appendLoop, hnone])
  · intro w items r h hr
    unfold Causal.processUnit at hr
    by_cases h1 : w.visExists ∧ w.audExists
    · simp only [h1, not_true_eq_false, if_false] at hr
      by_cases h2 : w.visText = "" ∨ w.audText = ""
      · simp [h2] at hr
      · simp only [h2, if_false] at hr
        rw [h] at hr
        simp only at hr
        by_cases hlen : items.length ≠ 2
        · simp [hlen] at hr
        · simp only [hlen, if_false] at hr
          rw [appendLoop_eq] at hr
          obtain ⟨d, hd, hrd⟩ := List.mem_map.mp hr
          have hdin : d ∈ items := mem_of_mem_takeWhile _ _ _ hd
          have hreq : Causal.hasRequired d = true := by
            have h3 := List.mem_takeWhile_imp (l := items)
              (p := fun d => (Causal.validate_item d w.vid).isSome) hd
            by_cases hq : Causal.hasRequired d
            · exact hq
            · exfalso
              unfold Causal.validate_item at h3
              simp [hq] at h3
          refine ⟨d, hdin, hreq, ?_⟩
          rw [← hrd]
          unfold Causal.validate_item
          rw [if_pos hreq]
          rfl
    · simp [h1] at hr
  · intro w items h hlen
    unfold Pitch.processUnit
    rw [h]
    split_ifs <;>
      first
        | rfl
        | (show (if items.length ≠ 3 then (([] : List Item), 1)
             else (appendLoop (fun d => Pitch.validate_item d w.vid)
               items, 1)).1 = []
           rw [if_pos hlen])
  · intro d vid h
    unfold Unanswerable.validate_item
    by_cases hreq : Causal.hasRequired d
    · rw [if_pos hreq, if_pos h]
    · rw [if_neg hreq]

/-- C4 witness: the amended rejections at concrete inputs — a non-list
response, an item missing a key, a response whose first item misses a
key, provenance of an appended record, a wrong-length pitch response,
and a three-option item under the unanswerable validator. -/
theorem c4_validation_rejection_amended_witness :
    (Causal.processUnit c4OtherUnit).1 = [] ∧
    Causal.validate_item c4MissingItem "v" = none ∧
    (Causal.processUnit c4FirstBadUnit).1 = [] ∧
    (∃ d ∈ ([c4Item, c4Item] : List Item), Causal.hasRequired d = true ∧
      Causal.stamp c4Unit.vid c4Item = Causal.stamp c4Unit.vid d) ∧
    (Pitch.processUnit c4PitchUnit).1 = [] ∧
    Unanswerable.validate_item c4Item "v" = none := by
  refine ⟨?_, ?_, ?_, ?_, ?_, ?_⟩
  · exact c4_validation_rejection_amended.1 c4OtherUnit rfl
  · exact c4_validation_rejection_amended.2.2.1 c4MissingItem "v" (by decide)
  · exact c4_validation_rejection_amended.2.2.2.1 c4FirstBadUnit
      c4MissingItem [c4Item] rfl (by decide)
  · exact c4_validation_rejection_amended.2.2.2.2.1 c4Unit [c4Item, c4Item]
      (Causal.stamp c4Unit.vid c4Item) rfl (by decide)
  · exact c4_validation_rejection_amended.2.2.2.2.2.1 c4PitchUnit [c4Item]
      rfl (by decide)
  · exact c4_validation_rejection_amended.2.2.2.2.2.2 c4Item "v" (by decide)

/-- C5 counterexample: the causal pipeline appends records whose options
do not have 4 entries and whose correct_answer_key is not among the
option labels — the BenchmarkItem invariant is not enforced there. -/
theorem c5_invariant_counterexample :
    (Causal.processUnit c5BadUnit).1.length = 2 ∧
    ¬(∀ r ∈ (Causal.processUnit c5BadUnit).1,
        (r.options.getD []).length = 4 ∧
        (lookupOpt (r.options.getD []) (r.correct_answer_key.getD "")).isSome) := by
  decide

/-- C5 amended: in the unanswerable pipeline, whose validator counts the
options, every appended record has exactly 4 options. -/
theorem c5_invariant_amended (ledger : List Item)
    (units : List Unanswerable.WUnit) (r : Item)
    (h : r ∈ (Unanswerable.runPipeline ledger units).1) :
    (r.options.getD []).length = 4 := by
  rw [Unanswerable.runPipeline, runUnits_records] at h
  rw [List.mem_flatten] at h
  obtain ⟨lr, hlr, h2⟩ := h
  rw [List.mem_map] at hlr
  obtain ⟨u, _, rfl⟩ := hlr
  exact Unanswerable.processUnit_options u r h2

/-- C5 witness: the amended invariant at a concrete appended record. -/
theorem c5_invariant_amended_witness :
    (c5Out.options.getD []).length = 4 :=
  c5_invariant_amended [] [c5Unit] c5Out (by decide)

/-- C6 counterexample: a two-item response whose second item fails
validation leaves exactly the first record in the ledger — neither all
nor none. -/
theorem c6_all_or_nothing_counterexample :
    (Causal.processUnit c6Unit).1.length = 1 ∧
    ¬((Causal.processUnit c6Unit).1.length = 0 ∨
      (Causal.processUnit c6Unit).1.length = 2) := by
  decide

/-- C6 amended: the write loop is prefix-atomic, not all-or-nothing: the
records appended for a unit are exactly the validated-and-stamped items
of the maximal validating prefix; all records are appended when every
item validates, and none when the first item fails. -/
theorem c6_prefix_append_amended :
    (∀ (w : Causal.WUnit) (items : List Item),
      w.response = some (JVal.arr items) → items.length = 2 →
      w.visExists = true → w.audExists = true →
      ¬(w.visText = "") → ¬(w.audText = "") →
      (Causal.processUnit w).1 =
        (items.takeWhile (fun d => Causal.hasRequired d)).map
          (Causal.stamp w.vid)) ∧
    (∀ (val : Item → Option Item) (items : List Item),
      (∀ d ∈ items, (val d).isSome = true) →
      appendLoop val items = items.map (fun d => (val d).getD d)) ∧
    (∀ (val : Item → Option Item) (d : Item) (rest : List Item),
      val d = none → appendLoop val (d :: rest) = []) := by
  refine ⟨?_, ?_, ?_⟩
  · intro w items h hlen hv ha hvt hat
    unfold Causal.processUnit
    rw [h]
    rw [if_neg (by simp [hv, ha]), if_neg (by simp [hvt, hat])]
    show (if items.length ≠ 2 then (([] : List Item), 1)
      else (appendLoop (fun d => Causal.validate_item d w.vid) items, 1)).1 =
        (items.takeWhile (fun d => Causal.hasRequired d)).map
          (Causal.stamp w.vid)
    rw [if_neg (by simp [hlen])]
    show appendLoop (fun d => Causal.validate_item d w.vid) items = _
    rw [appendLoop_eq]
    have hpred : (fun d => (Causal.validate_item d w.vid).isSome) =
        fun d => Causal.hasRequired d := by
      funext d
      unfold Causal.validate_item
      by_cases hreq : Causal.hasRequired d
      · simp [hreq]
      · simp [hreq]
    rw [hpred]
    apply List.map_congr_left
    intro d hd
    have hreq : Causal.hasRequired d = true := by
      have h3 := List.mem_takeWhile_imp
        (p := fun d => Causal.hasRequired d) hd
      simpa using h3
    unfold Causal.validate_item
    rw [if_pos hreq]
    rfl
  · intro val items hall
    induction items with
    | nil => rfl
    | cons d rest ih =>
      have hd : (val d).isSome = true := hall d (List.mem_cons_self d rest)
      obtain ⟨d2, h2⟩ := Option.isSome_iff_exists.mp hd
      rw [appendLoop, h2, List.map_cons, h2]
      have hrest : ∀ d ∈ rest, (val d).isSome = true :=
        fun x hx => hall x (List.mem_cons_of_mem d hx)
      rw [ih hrest]
      rfl
  · intro val d rest h
    rw [appendLoop, h]

/-- C6 witness: the prefix characterization at a unit whose two items
both validate, a loop over all-validating items, and a loop whose first
item fails. -/
theorem c6_prefix_append_amended_witness :
    (Causal.processUnit c6AllGoodUnit).1 =
      (([c6Good, c6Good]).takeWhile (fun d => Causal.hasRequired d)).map
        (Causal.stamp "v6b") ∧
    appendLoop (fun d => Causal.validate_item d "v6b") [c6Good] =
      [c6Good].map (fun d => (Causal.validate_item d "v6b").getD d) ∧
    appendLoop (fun d => Causal.validate_item d "v6b") [c6Bad, c6Good] = [] := by
  refine ⟨?_, ?_, ?_⟩
  · exact c6_prefix_append_amended.1 c6AllGoodUnit [c6Good, c6Good]
      rfl (by decide) rfl rfl (by decide) (by decide)
  · exact c6_prefix_append_amended.2.1 _ [c6Good] (by decide)
  · exact c6_prefix_append_amended.2.2 _ c6Bad [c6Good] (by decide)

/-- C7 counterexample: the retry wrapper of id_generation.py is keyed on
OpenAIError, so a non-rate-limit API failure is retried: five attempts
are made where the claim requires exactly one. -/
theorem c7_retry_counterexample :
    Retry.backoffRun Retry.retryable_id 5 (fun _ => Retry.Outcome.apiError) =
      (5, Retry.Outcome.apiError) ∧
    ¬((Retry.backoffRun Retry.retryable_id 5
        (fun _ => Retry.Outcome.apiError)).1 = 1) := by
  decide

/-- C7 amended: for the clients keyed on RateLimitError (every script
except id_generation), a non-rate-limit failure on the first attempt
propagates immediately after exactly one attempt, and rate limiting is
retried up to the bounded maximum: 5 attempts in the generation scripts
and 3 in the tempo-sync scripts. -/
theorem c7_retry_discipline_amended :
    (∀ (outcomes : Nat → Retry.Outcome) (maxTries : Nat), 1 ≤ maxTries →
      outcomes 0 = Retry.Outcome.apiError →
      Retry.backoffRun Retry.retryable_gen maxTries outcomes =
        (1, Retry.Outcome.apiError)) ∧
    (∀ outcomes : Nat → Retry.Outcome,
      (∀ i, outcomes i = Retry.Outcome.rateLimit) →
      Retry.backoffRun Retry.retryable_gen 5 outcomes =
        (5, Retry.Outcome.rateLimit) ∧
      Retry.backoffRun Retry.retryable_gen 3 outcomes =
        (3, Retry.Outcome.rateLimit)) := by
  constructor
  · intro outcomes maxTries hmt h0
    obtain ⟨f, rfl⟩ : ∃ f, maxTries = f + 1 := ⟨maxTries - 1, by omega⟩
    unfold Retry.backoffRun
    rw [Retry.attemptLoop]
    rw [h0]
    simp [Retry.retryable_gen]
  · intro outcomes hall
    constructor
    · have h5 := Retry.attemptLoop_all_rl outcomes hall 5 0 (by omega)
      rw [Retry.backoffRun, h5]
    · have h3 := Retry.attemptLoop_all_rl outcomes hall 3 0 (by omega)
      rw [Retry.backoffRun, h3]

/-- C7 witness: the amended retry discipline at the constant failure
oracles. -/
theorem c7_retry_discipline_amended_witness :
    Retry.backoffRun Retry.retryable_gen 5
      (fun _ => Retry.Outcome.apiError) = (1, Retry.Outcome.apiError) ∧
    Retry.backoffRun Retry.retryable_gen 5
      (fun _ => Retry.Outcome.rateLimit) = (5, Retry.Outcome.rateLimit) ∧
    Retry.backoffRun Retry.retryable_gen 3
      (fun _ => Retry.Outcome.rateLimit) = (3, Retry.Outcome.rateLimit) := by
  refine ⟨?_, ?_, ?_⟩
  · exact c7_retry_discipline_amended.1 (fun _ => Retry.Outcome.apiError) 5
      (by omega) rfl
  · exact (c7_retry_discipline_amended.2 (fun _ => Retry.Outcome.rateLimit)
      (fun i => rfl)).1
  · exact (c7_retry_discipline_amended.2 (fun _ => Retry.Outcome.rateLimit)
      (fun i => rfl)).2

/-- C8 counterexample: pitch_timbre_qa has no empty-text guard.  A unit
whose audio caption file exists but whose stripped text is empty still
triggers a model call. -/
theorem c8_missing_material_counterexample :
    c8PitchUnit.audText = "" ∧
    (Pitch.processUnit c8PitchUnit).2 = 1 ∧
    ¬((Pitch.processUnit c8PitchUnit).2 = 0) := by
  decide

/-- C8 amended: a unit with a missing caption file is skipped before any
model call in both cited pipelines, and the causal pipeline also skips
units whose caption text is empty after stripping; a skipped unit
contributes nothing to the run, which continues with the next unit.
(The empty-text skip does not hold in pitch_timbre_qa.) -/
theorem c8_missing_material_amended :
    (∀ w : Causal.WUnit, (w.visExists = false ∨ w.audExists = false ∨
        w.visText = "" ∨ w.audText = "") →
      Causal.processUnit w = ([], 0)) ∧
    (∀ w : Pitch.WUnit, w.audExists = false →
      Pitch.processUnit w = ([], 0)) ∧
    (∀ (ledger : List Item) (w : Causal.WUnit) (us : List Causal.WUnit),
      Causal.processUnit w = ([], 0) →
      Causal.runPipeline ledger (w :: us) = Causal.runPipeline ledger us) := by
  refine ⟨?_, ?_, ?_⟩
  · intro w h
    unfold Causal.processUnit
    by_cases g1 : (w.visExists ∧ w.audExists : Prop)
    · rw [if_neg (not_not_intro g1)]
      have g2 : w.visText = "" ∨ w.audText = "" := by
        rcases h with h | h | h | h
        · exact absurd g1 (by simp [h])
        · exact absurd g1 (by simp [h])
        · exact Or.inl h
        · exact Or.inr h
      rw [if_pos g2]
    · rw [if_pos g1]
  · intro w h
    unfold Pitch.processUnit
    rw [if_pos (by simp [h])]
  · intro ledger w us hw
    unfold Causal.runPipeline
    rw [List.filter_cons]
    by_cases hp : (decide (w.vid ∉ Causal.doneIds ledger)) = true
    · rw [if_pos hp]
      rw [runUnits, hw]
      simp
    · rw [if_neg hp]

/-- C8 witness: the amended skip behavior at concrete units with a
missing visual caption (causal), a missing audio caption (pitch), and a
skipped unit leaving the batch unchanged. -/
theorem c8_missing_material_amended_witness :
    Causal.processUnit c8CausalUnit = ([], 0) ∧
    Pitch.processUnit c8PitchMissing = ([], 0) ∧
    Causal.runPipeline c1Ledger (c8CausalUnit :: []) =
      Causal.runPipeline c1Ledger [] := by
  refine ⟨?_, ?_, ?_⟩
  · exact c8_missing_material_amended.1 c8CausalUnit (Or.inl rfl)
  · exact c8_missing_material_amended.2.1 c8PitchMissing rfl
  · exact c8_missing_material_amended.2.2 c1Ledger c8CausalUnit []
      (c8_missing_material_amended.1 c8CausalUnit (Or.inl rfl))

/-- C9: each reported aggregate equals the arithmetic mean of the
per-record scores times 100; for correctness scores 1, 1, 0 the answer
aggregate is 200/3, which prints as 66.67 percent under two-decimal
rounding. -/
theorem c9_aggregate_statistics (recs : List Eval.StatRecord)
    (h : ¬(recs = [])) :
    Eval.finalStats recs =
      some (Eval.specMean (recs.map Eval.answerScore) * 100,
            Eval.specMean (recs.map Eval.factualScore) * 100,
            Eval.specMean (recs.map Eval.coreScore) * 100) ∧
    Eval.finalStats c9Records = some (200 / 3, 0, 0) ∧
    Eval.round2 (200 / 3) = 6667 / 100 := by
  refine ⟨?_, ?_, ?_⟩
  · cases recs with
    | nil => exact absurd rfl h
    | cons a t =>
      unfold Eval.finalStats Eval.specMean
      simp [List.length_map]
  · show Eval.finalStats c9Records = some (200 / 3, 0, 0)
    unfold c9Records Eval.finalStats
    norm_num [Eval.answerScore, Eval.factualScore, Eval.coreScore]
  · show Eval.round2 (200 / 3) = 6667 / 100
    have h1 : round ((200 / 3 : ℚ) * 100) = 6667 := by
      rw [round_eq]
      rw [show ((200 / 3 : ℚ) * 100) + 1 / 2 = 40003 / 6 by norm_num]
      apply Int.floor_eq_iff.mpr
      constructor <;> norm_num
    rw [Eval.round2, h1]
    norm_num

/-- C9 witness: the aggregate theorem at the concrete record list with
correctness scores 1, 1, 0. -/
theorem c9_aggregate_statistics_witness :
    Eval.finalStats c9Records =
      some (Eval.specMean (c9Records.map Eval.answerScore) * 100,
            Eval.specMean (c9Records.map Eval.factualScore) * 100,
            Eval.specMean (c9Records.map Eval.coreScore) * 100) ∧
    Eval.finalStats c9Records = some (200 / 3, 0, 0) ∧
    Eval.round2 (200 / 3) = 6667 / 100 :=
  c9_aggregate_statistics c9Records (by decide)

/-- C10: option-shuffle preservation.  When the correct key is present
and the options fit the four labels, the shuffled dict holds a
permutation of the original option texts under labels drawn from ABCD
and the new correct key still maps to the original correct text; when
the correct key is absent, or more than four options make the loop
raise, the dict is returned unchanged. -/
theorem c10_shuffle_option_preservation (qa : TempoSync.QA)
    (sh : List (String × String)) (hperm : sh.Perm qa.options) :
    (∀ t, lookupOpt qa.options qa.correct_answer_key = some t →
      qa.options.length ≤ 4 →
      ((TempoSync.shuffle_qa_options qa sh).options.map Prod.snd).Perm
        (qa.options.map Prod.snd) ∧
      (∀ p ∈ (TempoSync.shuffle_qa_options qa sh).options,
        p.1 ∈ (["A", "B", "C", "D"] : List String)) ∧
      lookupOpt (TempoSync.shuffle_qa_options qa sh).options
        (TempoSync.shuffle_qa_options qa sh).correct_answer_key = some t) ∧
    (lookupOpt qa.options qa.correct_answer_key = none →
      TempoSync.shuffle_qa_options qa sh = qa) ∧
    (4 < qa.options.length → TempoSync.shuffle_qa_options qa sh = qa) := by
  refine ⟨?_, ?_, ?_⟩
  · intro t hlk hlen
    have hshlen : sh.length ≤ 4 := by rw [hperm.length_eq]; exact hlen
    have hfind : ∃ p, qa.options.find?
        (fun p => decide (p.1 = qa.correct_answer_key)) = some p ∧ p.2 = t := by
      unfold lookupOpt at hlk
      cases hf : qa.options.find? (fun p => decide (p.1 = qa.correct_answer_key)) with
      | none =>
        rw [hf] at hlk
        exact Option.noConfusion hlk
      | some p =>
        rw [hf] at hlk
        exact ⟨p, rfl, Option.some.inj hlk⟩
    obtain ⟨p, hf, hpt⟩ := hfind
    have hpmem : p ∈ qa.options := List.mem_of_find?_eq_some hf
    have hpsh : p ∈ sh := (hperm.mem_iff).mpr hpmem
    have hfls : (TempoSync.findLastLabel 0 t sh).isSome :=
      TempoSync.findLastLabel_isSome t sh ⟨p, hpsh, hpt⟩ 0
    obtain ⟨lbl, hlbl⟩ := Option.isSome_iff_exists.mp hfls
    have hX : TempoSync.shuffle_qa_options qa sh =
        { options := TempoSync.relabel 0 sh, correct_answer_key := lbl } := by
      unfold TempoSync.shuffle_qa_options
      rw [hlk]
      show (if sh.length ≤ 4 then _ else qa) = _
      rw [if_pos hshlen, hlbl]
    rw [hX]
    refine ⟨?_, ?_, ?_⟩
    · show ((TempoSync.relabel 0 sh).map Prod.snd).Perm _
      rw [TempoSync.relabel_map_snd]
      exact hperm.map Prod.snd
    · intro q hq
      obtain ⟨j, hj, hq1⟩ := TempoSync.mem_relabel sh 0 q hq
      rw [hq1]
      have hj4 : 0 + j < 4 := by omega
      exact TempoSync.labelOf_lt_mem (0 + j) hj4
    · obtain ⟨j, entry, hget, hct, hleq, hjlen⟩ :=
        TempoSync.findLastLabel_spec t sh 0 lbl hlbl
      show lookupOpt (TempoSync.relabel 0 sh) lbl = some t
      unfold lookupOpt
      rw [hleq]
      rw [TempoSync.find?_relabel sh 0 j entry (by omega) hget]
      simp [hct]
  · intro hnone
    unfold TempoSync.shuffle_qa_options
    rw [hnone]
  · intro hgt
    unfold TempoSync.shuffle_qa_options
    cases hlk : lookupOpt qa.options qa.correct_answer_key with
    | none => rfl
    | some t =>
      have hn : ¬(sh.length ≤ 4) := by rw [hperm.length_eq]; omega
      show (if sh.length ≤ 4 then _ else qa) = qa
      rw [if_neg hn]

/-- C10 witness: the shuffle theorem at a concrete four-option dict and
a concrete permutation of its entries. -/
theorem c10_shuffle_option_preservation_witness :
    ((TempoSync.shuffle_qa_options c10Qa c10Sh).options.map Prod.snd).Perm
      (c10Qa.options.map Prod.snd) ∧
    (∀ p ∈ (TempoSync.shuffle_qa_options c10Qa c10Sh).options,
      p.1 ∈ (["A", "B", "C", "D"] : List String)) ∧
    lookupOpt (TempoSync.shuffle_qa_options c10Qa c10Sh).options
      (TempoSync.shuffle_qa_options c10Qa c10Sh).correct_answer_key =
        some "y" :=
  (c10_shuffle_option_preservation c10Qa c10Sh (by decide)).1 "y"
    (by decide) (by decide)
